import Mathlib

/-!
Verification of the protein-hash spectral fingerprint pipeline
(src/tools/protein-hash): canonicalizer (normalize.rs), graph builder
(graph.rs), spectral signature computer (spectrum.rs) and comparator
(compare.rs), shallowly embedded in Lean.  Floating-point values are
modelled as real numbers; edge weights, which are small literals, as
rationals where exact computation is wanted.  Rust `HashMap` is modelled
as an association list whose lookup takes the most recent binding, which
matches the observable get/insert behaviour of the code (the maps are
never iterated).
-/

namespace ProteinHash

/-- Similarity metric selector, mirroring `enum Metric` in compare.rs. -/
inductive Metric where
  | cosine
  | rmse

/-- Signature record, mirroring `struct ProteinSignature` in spectrum.rs:
the value vector plus the requested `k` and quantization `quant` tags. -/
structure ProteinSignature where
  values : List ℝ
  k : Nat
  quant : Nat

/-- Embedding of `cosine_similarity` (compare.rs lines 24-38): dot product
over the product of Euclidean norms, with the zero-norm conventions taken
branch for branch from the code. -/
noncomputable def cosine_similarity (a b : List ℝ) : Except String ℝ :=
  let dot_product : ℝ := ((a.zip b).map (fun p => p.1 * p.2)).sum
  let norm_a : ℝ := Real.sqrt ((a.map (fun x => x * x)).sum)
  let norm_b : ℝ := Real.sqrt ((b.map (fun x => x * x)).sum)
  if norm_a = 0 ∨ norm_b = 0 then
    if norm_a = 0 ∧ norm_b = 0 then Except.ok 1
    else Except.ok 0
  else
    Except.ok (dot_product / (norm_a * norm_b))

/-- Embedding of `rmse` (compare.rs lines 40-48): root mean squared
difference over matching components, dividing by the vector length. -/
noncomputable def rmse (a b : List ℝ) : Except String ℝ :=
  let n : ℝ := a.length
  let sum_squared_diff : ℝ := ((a.zip b).map (fun p => (p.1 - p.2) ^ 2)).sum
  Except.ok (Real.sqrt (sum_squared_diff / n))

/-- Embedding of `compare_signatures` (compare.rs lines 9-22): a hard
length check followed by dispatch on the metric. -/
noncomputable def compare_signatures (sig1 sig2 : ProteinSignature) (metric : Metric) :
    Except String ℝ :=
  if sig1.values.length ≠ sig2.values.length then
    Except.error "Signature length mismatch"
  else
    match metric with
    | Metric.cosine => cosine_similarity sig1.values sig2.values
    | Metric.rmse => rmse sig1.values sig2.values

/-- Embedding of `classify_similarity` (compare.rs lines 50-60). -/
noncomputable def classify_similarity (cosine : ℝ) : String :=
  if 0.985 ≤ cosine then "equivalent"
  else if 0.95 ≤ cosine then "very_similar"
  else if 0.85 ≤ cosine then "similar"
  else "different"

theorem cosine_similarity_never_errors (a b : List ℝ) :
    ∃ v, cosine_similarity a b = Except.ok v := by
  simp only [cosine_similarity]
  split
  · split
    · exact ⟨1, rfl⟩
    · exact ⟨0, rfl⟩
  · exact ⟨_, rfl⟩

theorem rmse_never_errors (a b : List ℝ) :
    ∃ v, rmse a b = Except.ok v := ⟨_, rfl⟩

/-- C5: `compare_signatures` returns an error if and only if the two input
signatures' value vectors have different lengths; on equal lengths it never
errors, and on mismatch no metric value is produced. -/
theorem compare_signatures_error_iff_length_mismatch
    (sig1 sig2 : ProteinSignature) (metric : Metric) :
    (∃ msg, compare_signatures sig1 sig2 metric = Except.error msg) ↔
      sig1.values.length ≠ sig2.values.length := by
  constructor
  · rintro ⟨msg, hmsg⟩ hlen
    unfold compare_signatures at hmsg
    rw [if_neg (not_not_intro hlen)] at hmsg
    cases metric
    · obtain ⟨v, hv⟩ := cosine_similarity_never_errors sig1.values sig2.values
      rw [hv] at hmsg
      exact Except.noConfusion hmsg
    · obtain ⟨v, hv⟩ := rmse_never_errors sig1.values sig2.values
      rw [hv] at hmsg
      exact Except.noConfusion hmsg
  · intro hlen
    exact ⟨_, by unfold compare_signatures; rw [if_pos hlen]⟩

theorem sum_of_squares_nonneg (l : List ℝ) : 0 ≤ (l.map (fun x => x * x)).sum := by
  apply List.sum_nonneg
  intro x hx
  obtain ⟨y, _, rfl⟩ := List.mem_map.mp hx
  exact mul_self_nonneg y

theorem sum_of_squares_eq_zero_iff (l : List ℝ) :
    (l.map (fun x => x * x)).sum = 0 ↔ ∀ x ∈ l, x = 0 := by
  induction l with
  | nil => simp
  | cons y t ih =>
    simp only [List.map_cons, List.sum_cons, List.mem_cons]
    rw [add_eq_zero_iff_of_nonneg (mul_self_nonneg y) (sum_of_squares_nonneg t)]
    rw [mul_self_eq_zero, ih]
    constructor
    · rintro ⟨hy, ht⟩ x hx
      rcases hx with rfl | hx
      · exact hy
      · exact ht x hx
    · intro h
      exact ⟨h y (Or.inl rfl), fun x hx => h x (Or.inr hx)⟩

theorem norm_eq_zero_iff_all_zero (l : List ℝ) :
    Real.sqrt ((l.map (fun x => x * x)).sum) = 0 ↔ ∀ x ∈ l, x = 0 := by
  rw [← sum_of_squares_eq_zero_iff]
  constructor
  · intro h
    have := Real.sqrt_eq_zero (sum_of_squares_nonneg l) |>.mp h
    exact this
  · intro h
    rw [h, Real.sqrt_zero]

/-- C6: for equal-length vectors, cosine similarity returns exactly 1 when
both vectors are zero (zero norm), exactly 0 when exactly one of them is
zero, and the dot product divided by the product of the norms otherwise. -/
theorem cosine_similarity_zero_norm_conventions (a b : List ℝ)
    (hlen : a.length = b.length) :
    ((∀ x ∈ a, x = 0) → (∀ x ∈ b, x = 0) → cosine_similarity a b = Except.ok 1) ∧
    ((∀ x ∈ a, x = 0) → (∃ x ∈ b, x ≠ 0) → cosine_similarity a b = Except.ok 0) ∧
    ((∃ x ∈ a, x ≠ 0) → (∀ x ∈ b, x = 0) → cosine_similarity a b = Except.ok 0) ∧
    ((∃ x ∈ a, x ≠ 0) → (∃ x ∈ b, x ≠ 0) →
      cosine_similarity a b =
        Except.ok (((a.zip b).map (fun p => p.1 * p.2)).sum /
          (Real.sqrt ((a.map (fun x => x * x)).sum) *
            Real.sqrt ((b.map (fun x => x * x)).sum)))) := by
  have hiffa := norm_eq_zero_iff_all_zero a
  have hiffb := norm_eq_zero_iff_all_zero b
  refine ⟨?_, ?_, ?_, ?_⟩
  · intro ha hb
    simp only [cosine_similarity]
    rw [if_pos (Or.inl (hiffa.mpr ha)), if_pos ⟨hiffa.mpr ha, hiffb.mpr hb⟩]
  · intro ha hb
    have hb0 : ¬ Real.sqrt ((b.map (fun x => x * x)).sum) = 0 := by
      intro h
      obtain ⟨x, hx, hxne⟩ := hb
      exact hxne (hiffb.mp h x hx)
    simp only [cosine_similarity]
    rw [if_pos (Or.inl (hiffa.mpr ha)),
      if_neg (fun hc => hb0 hc.2)]
  · intro ha hb
    have ha0 : ¬ Real.sqrt ((a.map (fun x => x * x)).sum) = 0 := by
      intro h
      obtain ⟨x, hx, hxne⟩ := ha
      exact hxne (hiffa.mp h x hx)
    simp only [cosine_similarity]
    rw [if_pos (Or.inr (hiffb.mpr hb)),
      if_neg (fun hc => ha0 hc.1)]
  · intro ha hb
    have ha0 : ¬ Real.sqrt ((a.map (fun x => x * x)).sum) = 0 := by
      intro h
      obtain ⟨x, hx, hxne⟩ := ha
      exact hxne (hiffa.mp h x hx)
    have hb0 : ¬ Real.sqrt ((b.map (fun x => x * x)).sum) = 0 := by
      intro h
      obtain ⟨x, hx, hxne⟩ := hb
      exact hxne (hiffb.mp h x hx)
    simp only [cosine_similarity]
    rw [if_neg (fun hc => hc.elim ha0 hb0)]

theorem cosine_similarity_zero_norm_conventions_witness :
    cosine_similarity [(0 : ℝ), 0] [(0 : ℝ), 0] = Except.ok 1 :=
  (cosine_similarity_zero_norm_conventions [0, 0] [0, 0] rfl).1
    (by intro x hx; rcases List.mem_cons.mp hx with h | h <;> simp_all)
    (by intro x hx; rcases List.mem_cons.mp hx with h | h <;> simp_all)

/-- C10: the comparator consults only the two value vectors; the `k` and
`quant` tags on the signatures never influence the result. -/
theorem compare_signatures_uses_only_values (s1 s2 t1 t2 : ProteinSignature)
    (metric : Metric) (h1 : s1.values = t1.values) (h2 : s2.values = t2.values) :
    compare_signatures s1 s2 metric = compare_signatures t1 t2 metric := by
  unfold compare_signatures
  rw [h1, h2]

theorem compare_signatures_uses_only_values_witness :
    compare_signatures ⟨[1, 2], 2, 6⟩ ⟨[0, 1], 2, 6⟩ Metric.cosine =
      compare_signatures ⟨[1, 2], 16, 0⟩ ⟨[0, 1], 7, 3⟩ Metric.cosine :=
  compare_signatures_uses_only_values _ _ _ _ _ rfl rfl

/-- Binary operators: the seven operators the canonicalizer treats as
commutative, plus representatives of the remaining (non-commutative) swc
operators collapsed into `other`. -/
inductive BinOp where
  | add | sub | mul | div | bitAnd | bitOr | bitXor | logicalAnd | logicalOr | other
deriving DecidableEq

/-- Unary operators (an opaque tag as far as the pipeline is concerned). -/
inductive UnOp where
  | minus | bang | other
deriving DecidableEq

/-- Literals: number, string, bool are distinguished by the code; the
remaining swc literal kinds are collapsed into `other`. -/
inductive Lit where
  | num (value : ℚ)
  | str (value : String)
  | bool (value : Bool)
  | other
deriving DecidableEq

/-- Expression subset mirroring the swc constructs the pipeline handles.
The callee of a call is `some e` for `Callee::Expr(e)` and `none` for the
non-expression callees (`Super`/`Import`); `other` stands for every
expression kind both walkers leave to their fallback arms. -/
inductive Expr where
  | ident (sym : String)
  | bin (op : BinOp) (left : Expr) (right : Expr)
  | unary (op : UnOp) (arg : Expr)
  | call (callee : Option Expr) (args : List Expr)
  | lit (value : Lit)
  | other

/-- Statement subset: return, expression statement, block, if, and the
fallback `other` for every statement kind the walkers do not handle
(including nested declarations, which reach the walkers as statements). -/
inductive Stmt where
  | ret (arg : Option Expr)
  | exprStmt (e : Expr)
  | block (stmts : List Stmt)
  | ifStmt (test : Expr) (cons : Stmt) (alt : Option Stmt)
  | other

/-- Binding patterns: only the simple identifier pattern is handled. -/
inductive Pat where
  | ident (sym : String)
  | other
deriving DecidableEq

/-- Function bodies are optional block statements, mirroring swc. -/
structure Function where
  params : List Pat
  body : Option (List Stmt)

/-- Variable declarator: a pattern plus an optional initializer. -/
structure VarDeclarator where
  name : Pat
  init : Option Expr

/-- Declarations: function declarations, variable declarations, and the
unhandled remainder. -/
inductive Decl where
  | fn (ident : String) (function : Function)
  | var (decls : List VarDeclarator)
  | other

/-- Default-exported declarations (only functions are handled). -/
inductive DefaultDecl where
  | fn (ident : Option String) (function : Function)
  | other

/-- Module-level declarations: plain exports, default exports, rest. -/
inductive ModuleDecl where
  | exportDecl (decl : Decl)
  | exportDefaultDecl (decl : DefaultDecl)
  | other

/-- Module items are either module declarations or plain statements. -/
inductive ModuleItem where
  | moduleDecl (d : ModuleDecl)
  | stmt (s : Stmt)

/-- A parsed module: the root of the syntax tree. -/
structure Module where
  body : List ModuleItem

/-- Canonicalizer state, mirroring `struct Normalizer` in normalize.rs:
the original-name to canonical-name map and the next fresh id.  The
`HashMap` is modelled as an association list whose lookup returns the
most recent binding. -/
structure Normalizer where
  identifier_map : List (String × String)
  next_id : Nat
deriving DecidableEq

/-- Association-list rendering of `HashMap::get`. -/
def map_get (m : List (String × String)) (key : String) : Option String :=
  (m.find? (fun p => p.1 == key)).map (fun p => p.2)

/-- Embedding of `Normalizer::normalize_ident` (normalize.rs lines
181-194): reuse the mapped canonical name if the original is already
bound, otherwise mint `v<next_id>` and record it. -/
def normalize_ident (original : String) (st : Normalizer) : String × Normalizer :=
  match st.identifier_map.find? (fun p => p.1 == original) with
  | some p => (p.2, st)
  | none =>
    let new_name := "v" ++ toString st.next_id
    (new_name, ⟨(original, new_name) :: st.identifier_map, st.next_id + 1⟩)

/-- Embedding of `Normalizer::normalize_pat`: only identifier patterns
are rewritten. -/
def normalize_pat : Pat → Normalizer → Pat × Normalizer
  | .ident sym, st =>
    let r := normalize_ident sym st
    (.ident r.1, r.2)
  | .other, st => (.other, st)

/-- Embedding of `Normalizer::normalize_literal`: the code inspects
numeric literals but changes nothing. -/
def normalize_literal (lit : Lit) (st : Normalizer) : Lit × Normalizer :=
  (lit, st)

/-- Rendering of the operator tag inside the structural fallback key. -/
def binop_format : BinOp → String
  | .add => "+"
  | .sub => "-"
  | .mul => "*"
  | .div => "/"
  | .bitAnd => "&"
  | .bitOr => "|"
  | .bitXor => "^"
  | .logicalAnd => "&&"
  | .logicalOr => "||"
  | .other => "?"

/-- Rendering of the unary operator tag inside the fallback key. -/
def unop_format : UnOp → String
  | .minus => "-"
  | .bang => "!"
  | .other => "?"

/-- Rendering of literals inside the fallback key. -/
def lit_format : Lit → String
  | .num v => "Num(" ++ toString v ++ ")"
  | .str s => "Str(" ++ s ++ ")"
  | .bool b => "Bool(" ++ toString b ++ ")"
  | .other => "OtherLit"

mutual

/-- Deterministic structural printer standing in for the derived `Debug`
formatting that `expr_sort_key` falls back to; the exact text differs from
swc's derive output but is a fixed function of the tree, which is all the
code relies on. -/
def debug_format : Expr → String
  | .ident sym => "Ident(" ++ sym ++ ")"
  | .bin op l r =>
    "Bin(" ++ binop_format op ++ "," ++ debug_format l ++ "," ++ debug_format r ++ ")"
  | .unary op a => "Unary(" ++ unop_format op ++ "," ++ debug_format a ++ ")"
  | .call callee args =>
    "Call(" ++ debug_format_callee callee ++ "," ++ debug_format_args args ++ ")"
  | .lit v => "Lit(" ++ lit_format v ++ ")"
  | .other => "OtherExpr"

/-- Printer for the callee slot. -/
def debug_format_callee : Option Expr → String
  | some e => debug_format e
  | none => "NotExpr"

/-- Printer for argument lists. -/
def debug_format_args : List Expr → String
  | [] => ""
  | e :: rest => debug_format e ++ ";" ++ debug_format_args rest

end

/-- Embedding of `Normalizer::expr_sort_key` (normalize.rs lines 208-216):
identifiers sort by name, numeric and string literals by tagged value,
everything else by a structural fallback key. -/
def expr_sort_key (expr : Expr) : String :=
  match expr with
  | .ident sym => sym
  | .lit (.num n) => "num:" ++ toString n
  | .lit (.str s) => "str:" ++ s
  | e => "expr:" ++ debug_format e

/-- Operators the canonicalizer reorders, from the match arm in
`normalize_expr` (normalize.rs lines 138-141). -/
def is_commutative : BinOp → Bool
  | .add | .mul | .bitAnd | .bitOr | .bitXor | .logicalAnd | .logicalOr => true
  | _ => false

mutual

/-- Embedding of `Normalizer::normalize_expr` (normalize.rs lines
128-170): rewrite identifiers, recurse into operands and arguments, and
swap the operands of a commutative binary operator when their sort keys
are out of order (keys are computed after the operands were rewritten,
exactly as in the code). -/
def normalize_expr : Expr → Normalizer → Expr × Normalizer
  | .ident sym, st =>
    let r := normalize_ident sym st
    (.ident r.1, r.2)
  | .bin op left right, st =>
    let rl := normalize_expr left st
    let rr := normalize_expr right rl.2
    if is_commutative op then
      let left_key := expr_sort_key rl.1
      let right_key := expr_sort_key rr.1
      if right_key < left_key then (.bin op rr.1 rl.1, rr.2)
      else (.bin op rl.1 rr.1, rr.2)
    else (.bin op rl.1 rr.1, rr.2)
  | .unary op arg, st =>
    let ra := normalize_expr arg st
    (.unary op ra.1, ra.2)
  | .call callee args, st =>
    let rc := normalize_callee callee st
    let ra := normalize_expr_args args rc.2
    (.call rc.1 ra.1, ra.2)
  | .lit l, st =>
    let r := normalize_literal l st
    (.lit r.1, r.2)
  | .other, st => (.other, st)

/-- Callee slot of a call: only `Callee::Expr` is visited. -/
def normalize_callee : Option Expr → Normalizer → Option Expr × Normalizer
  | some e, st =>
    let r := normalize_expr e st
    (some r.1, r.2)
  | none, st => (none, st)

/-- Argument lists are visited left to right. -/
def normalize_expr_args : List Expr → Normalizer → List Expr × Normalizer
  | [], st => ([], st)
  | e :: rest, st =>
    let r := normalize_expr e st
    let rr := normalize_expr_args rest r.2
    (r.1 :: rr.1, rr.2)

end

mutual

/-- Embedding of `Normalizer::normalize_stmt` (normalize.rs lines 98-120):
return, expression, block and if statements are visited; everything else
passes through unchanged. -/
def normalize_stmt : Stmt → Normalizer → Stmt × Normalizer
  | .ret (some arg), st =>
    let r := normalize_expr arg st
    (.ret (some r.1), r.2)
  | .ret none, st => (.ret none, st)
  | .exprStmt e, st =>
    let r := normalize_expr e st
    (.exprStmt r.1, r.2)
  | .block stmts, st =>
    let r := normalize_block_stmt stmts st
    (.block r.1, r.2)
  | .ifStmt test cons (some alt), st =>
    let rt := normalize_expr test st
    let rc := normalize_stmt cons rt.2
    let ra := normalize_stmt alt rc.2
    (.ifStmt rt.1 rc.1 (some ra.1), ra.2)
  | .ifStmt test cons none, st =>
    let rt := normalize_expr test st
    let rc := normalize_stmt cons rt.2
    (.ifStmt rt.1 rc.1 none, rc.2)
  | .other, st => (.other, st)

/-- Embedding of `Normalizer::normalize_block_stmt`: statements in order. -/
def normalize_block_stmt : List Stmt → Normalizer → List Stmt × Normalizer
  | [], st => ([], st)
  | s :: rest, st =>
    let r := normalize_stmt s st
    let rr := normalize_block_stmt rest r.2
    (r.1 :: rr.1, rr.2)

end

/-- Parameters are rewritten in declaration order. -/
def normalize_params : List Pat → Normalizer → List Pat × Normalizer
  | [], st => ([], st)
  | p :: rest, st =>
    let r := normalize_pat p st
    let rr := normalize_params rest r.2
    (r.1 :: rr.1, rr.2)

/-- Embedding of `Normalizer::normalize_function` (normalize.rs lines
80-96): save the identifier map, rewrite parameters then the body, and
restore the saved map on exit (the fresh-id counter is not restored). -/
def normalize_function (func : Function) (st : Normalizer) : Function × Normalizer :=
  let saved_map := st.identifier_map
  let rp := normalize_params func.params st
  let rb := match func.body with
    | some body =>
      let r := normalize_block_stmt body rp.2
      (some r.1, r.2)
    | none => (none, rp.2)
  (⟨rp.1, rb.1⟩, ⟨saved_map, rb.2.next_id⟩)

/-- Declarators of a variable declaration, visited in order. -/
def normalize_var_declarator (decl : VarDeclarator) (st : Normalizer) :
    VarDeclarator × Normalizer :=
  let rn := normalize_pat decl.name st
  match decl.init with
  | some init =>
    let ri := normalize_expr init rn.2
    (⟨rn.1, some ri.1⟩, ri.2)
  | none => (⟨rn.1, none⟩, rn.2)

/-- Folds `normalize_var_declarator` over a declarator list. -/
def normalize_var_declarators : List VarDeclarator → Normalizer → List VarDeclarator × Normalizer
  | [], st => ([], st)
  | d :: rest, st =>
    let r := normalize_var_declarator d st
    let rr := normalize_var_declarators rest r.2
    (r.1 :: rr.1, rr.2)

/-- Embedding of `Normalizer::normalize_decl` (normalize.rs lines 62-78). -/
def normalize_decl : Decl → Normalizer → Decl × Normalizer
  | .fn ident function, st =>
    let ri := normalize_ident ident st
    let rf := normalize_function function ri.2
    (.fn ri.1 rf.1, rf.2)
  | .var decls, st =>
    let r := normalize_var_declarators decls st
    (.var r.1, r.2)
  | .other, st => (.other, st)

/-- Embedding of `Normalizer::normalize_default_decl` (normalize.rs lines
50-60). -/
def normalize_default_decl : DefaultDecl → Normalizer → DefaultDecl × Normalizer
  | .fn (some ident) function, st =>
    let ri := normalize_ident ident st
    let rf := normalize_function function ri.2
    (.fn (some ri.1) rf.1, rf.2)
  | .fn none function, st =>
    let rf := normalize_function function st
    (.fn none rf.1, rf.2)
  | .other, st => (.other, st)

/-- Embedding of `Normalizer::normalize_module_decl`. -/
def normalize_module_decl : ModuleDecl → Normalizer → ModuleDecl × Normalizer
  | .exportDecl decl, st =>
    let r := normalize_decl decl st
    (.exportDecl r.1, r.2)
  | .exportDefaultDecl decl, st =>
    let r := normalize_default_decl decl st
    (.exportDefaultDecl r.1, r.2)
  | .other, st => (.other, st)

/-- Embedding of `Normalizer::normalize_module_item`. -/
def normalize_module_item : ModuleItem → Normalizer → ModuleItem × Normalizer
  | .moduleDecl d, st =>
    let r := normalize_module_decl d st
    (.moduleDecl r.1, r.2)
  | .stmt s, st =>
    let r := normalize_stmt s st
    (.stmt r.1, r.2)

/-- Items of a module, visited in order. -/
def normalize_module_items : List ModuleItem → Normalizer → List ModuleItem × Normalizer
  | [], st => ([], st)
  | it :: rest, st =>
    let r := normalize_module_item it st
    let rr := normalize_module_items rest r.2
    (r.1 :: rr.1, rr.2)

/-- Embedding of `Normalizer::normalize_module`. -/
def normalize_module (m : Module) (st : Normalizer) : Module × Normalizer :=
  let r := normalize_module_items m.body st
  (⟨r.1⟩, r.2)

/-- Embedding of `normalize_ast` (normalize.rs lines 6-10): run a fresh
normalizer (empty map, counter 1) over the module; the Rust `Result`
wrapper is dropped because no path errors. -/
def normalize_ast (module : Module) : Module :=
  (normalize_module module ⟨[], 1⟩).1

/-- Function with a parameter `x` that shadows an outer-scope binding of
`x`, used to probe the scoping rule of `normalize_function`. -/
def shadow_function : Function :=
  ⟨[Pat.ident "x"], some [Stmt.ret (some (Expr.ident "x"))]⟩

/-- Module exporting `function f()` and then `function g(f)` whose
parameter `f` shadows the outer function name `f`. -/
def shadow_module : Module :=
  ⟨[ModuleItem.moduleDecl (ModuleDecl.exportDecl (Decl.fn "f" ⟨[], none⟩)),
    ModuleItem.moduleDecl (ModuleDecl.exportDecl (Decl.fn "g"
      ⟨[Pat.ident "f"], some [Stmt.ret (some (Expr.ident "f"))]⟩))]⟩

/-- C2 counterexample: running the real entrypoint `normalize_ast` on
`shadow_module`, the parameter `f` of `g` — a binder inside the nested
function scope that shadows the outer name `f ↦ v1` — is renamed to the
*outer* canonical name `v1`, not to a fresh name (which would have been
`v3`, since `next_id` is 3 at that point): `normalize_ident` reuses any
existing binding before minting a fresh one, and binders take the same
path as uses. -/
theorem shadowed_binder_not_fresh :
    normalize_ast shadow_module =
      ⟨[ModuleItem.moduleDecl (ModuleDecl.exportDecl (Decl.fn "v1" ⟨[], none⟩)),
        ModuleItem.moduleDecl (ModuleDecl.exportDecl (Decl.fn "v2"
          ⟨[Pat.ident "v1"], some [Stmt.ret (some (Expr.ident "v1"))]⟩))]⟩ := rfl

/-- C2 amended: on exit from `normalize_function` the saved identifier
map is restored, so sibling and outer identifiers are unaffected; and a
binder inside the function that shadows an outer-scope name is not
re-canonicalized — `normalize_ident` returns the outer name's existing
canonical name and leaves the state unchanged. -/
theorem normalize_function_scoping (func : Function) (st : Normalizer)
    (original existing : String)
    (hbound : map_get st.identifier_map original = some existing) :
    ((normalize_function func st).2).identifier_map = st.identifier_map ∧
      normalize_ident original st = (existing, st) := by
  refine ⟨rfl, ?_⟩
  unfold map_get at hbound
  obtain ⟨p, hp, hval⟩ := Option.map_eq_some'.mp hbound
  unfold normalize_ident
  rw [hp]
  simp only [hval]

theorem normalize_function_scoping_witness :
    ((normalize_function shadow_function ⟨[("x", "v1")], 2⟩).2).identifier_map =
        [("x", "v1")] ∧
      normalize_ident "x" ⟨[("x", "v1")], 2⟩ = ("v1", ⟨[("x", "v1")], 2⟩) :=
  normalize_function_scoping shadow_function ⟨[("x", "v1")], 2⟩ "x" "v1" (by decide)

/-- Module that exports a function `add(a, b)` returning `a + b`,
mirroring the repository's own test inputs. -/
def sample_module : Module :=
  ⟨[ModuleItem.moduleDecl (ModuleDecl.exportDecl (Decl.fn "add"
      ⟨[Pat.ident "a", Pat.ident "b"],
        some [Stmt.ret (some (Expr.bin BinOp.add (Expr.ident "a") (Expr.ident "b")))]⟩))]⟩

/-- C9: canonicalization is deterministic — `normalize_ast` is a function
of the input tree alone, so two runs on copies of the same tree produce
identical outputs (identifier names and operand order included). -/
theorem normalize_ast_deterministic (m1 m2 : Module) (h : m1 = m2) :
    normalize_ast m1 = normalize_ast m2 := by
  rw [h]

theorem normalize_ast_deterministic_witness :
    normalize_ast sample_module = normalize_ast sample_module :=
  normalize_ast_deterministic sample_module sample_module rfl

/-- Literal payloads stored on graph nodes, mirroring `enum LitType` in
graph.rs (numbers kept exact as rationals). -/
inductive LitType where
  | num (value : ℚ)
  | str (value : String)
  | bool (value : Bool)
deriving DecidableEq

/-- Graph node payloads, mirroring `enum NodeType` in graph.rs; the `If`
and `Block` variants are spelled `ifNode` and `blockNode`. -/
inductive NodeType where
  | function (name : String)
  | param (name : String)
  | ret
  | binary (op : BinOp)
  | unary (op : UnOp)
  | call (callee : String)
  | identifier (name : String)
  | literal (value : LitType)
  | ifNode
  | blockNode
deriving DecidableEq

/-- Edge payloads with their scalar weight, mirroring `enum EdgeType` in
graph.rs. -/
inductive EdgeType where
  | astParent (w : ℚ)
  | dataFlow (w : ℚ)
  | callEdge (w : ℚ)
deriving DecidableEq

/-- Embedding of `EdgeType::weight`. -/
def EdgeType.weight : EdgeType → ℚ
  | .astParent w => w
  | .dataFlow w => w
  | .callEdge w => w

/-- Recognizer for structural edges, used to state the C4 invariant. -/
def EdgeType.isAstParent : EdgeType → Prop
  | .astParent _ => True
  | _ => False

instance (e : EdgeType) : Decidable e.isAstParent := by
  cases e <;> simp only [EdgeType.isAstParent] <;> infer_instance

/-- Embedding of `struct GraphData`: the petgraph graph is modelled by
its node list (a node's index is its position, matching petgraph's
insertion-order indices) and its edge list in insertion order, each edge
keeping its `(source, target, weight)` triple. -/
structure GraphData where
  nodes : List NodeType
  edges : List (Nat × Nat × EdgeType)
  node_map : List (String × Nat)
deriving DecidableEq

/-- Embedding of `struct GraphStats`. -/
structure GraphStats where
  nodes : Nat
  edges : Nat
deriving DecidableEq

/-- Embedding of `struct GraphBuilder`: graph under construction plus the
never-scope-restored definition map. -/
structure GraphBuilder where
  nodes : List NodeType
  edges : List (Nat × Nat × EdgeType)
  node_map : List (String × Nat)
  def_map : List (String × Nat)
  next_node_id : Nat
deriving DecidableEq

/-- Embedding of `GraphBuilder::add_node`: append the node and return its
index (petgraph indices are allocation order, so the index is the length
of the node list before the append). -/
def add_node (st : GraphBuilder) (node_type : NodeType) : Nat × GraphBuilder :=
  (st.nodes.length,
    { st with nodes := st.nodes ++ [node_type], next_node_id := st.next_node_id + 1 })

/-- Embedding of `GraphBuilder::add_edge`: append an edge triple. -/
def add_edge (st : GraphBuilder) (a b : Nat) (edge_type : EdgeType) : GraphBuilder :=
  { st with edges := st.edges ++ [(a, b, edge_type)] }

/-- `HashMap::insert` on the definition map (most recent binding wins). -/
def def_map_insert (st : GraphBuilder) (name : String) (idx : Nat) : GraphBuilder :=
  { st with def_map := (name, idx) :: st.def_map }

/-- `HashMap::get` on the definition map. -/
def def_map_get (st : GraphBuilder) (name : String) : Option Nat :=
  (st.def_map.find? (fun p => p.1 == name)).map (fun p => p.2)

/-- Optional structural edge to the parent, the `if let Some(p) = parent`
prologue every node-creating arm of graph.rs runs. -/
def parent_edge (st : GraphBuilder) (parent : Option Nat) (idx : Nat) : GraphBuilder :=
  match parent with
  | some p => add_edge st p idx (.astParent 1)
  | none => st

/-- Data-flow edge from a resolved definition to a use site, the
`if let Some(&def_node) = self.def_map.get(&name)` block of the
identifier arm. -/
def data_flow_edge_from_def (st : GraphBuilder) (name : String) (idx : Nat) : GraphBuilder :=
  match def_map_get st name with
  | some def_node => add_edge st def_node idx (.dataFlow 2)
  | none => st

/-- Call edge from a call site to a resolved callee definition, the
`if let Some(&def_node) = self.def_map.get(&callee_name)` block of the
call arm. -/
def call_edge_to_def (st : GraphBuilder) (name : String) (idx : Nat) : GraphBuilder :=
  match def_map_get st name with
  | some def_node => add_edge st idx def_node (.callEdge (3 / 2))
  | none => st

mutual

/-- Embedding of `GraphBuilder::build_expr` (graph.rs lines 266-362): one
node per visited expression, a structural edge to the parent when there
is one, data-flow edges from resolved definitions to identifier uses,
call edges from calls to resolved callees, and the `Identifier("unknown")`
fallback for every unhandled expression kind.  Binary operands receive a
second, explicit structural edge, exactly as in the code. -/
def build_expr : Expr → Option Nat → GraphBuilder → Nat × GraphBuilder
  | .ident sym, parent, st =>
    let r := add_node st (.identifier sym)
    let st1 := parent_edge r.2 parent r.1
    let st2 := data_flow_edge_from_def st1 sym r.1
    (r.1, st2)
  | .bin op left right, parent, st =>
    let r := add_node st (.binary op)
    let st1 := parent_edge r.2 parent r.1
    let rl := build_expr left (some r.1) st1
    let rr := build_expr right (some r.1) rl.2
    let st2 := add_edge rr.2 r.1 rl.1 (.astParent 1)
    let st3 := add_edge st2 r.1 rr.1 (.astParent 1)
    (r.1, st3)
  | .unary op arg, parent, st =>
    let r := add_node st (.unary op)
    let st1 := parent_edge r.2 parent r.1
    let ra := build_expr arg (some r.1) st1
    let st2 := add_edge ra.2 r.1 ra.1 (.astParent 1)
    (r.1, st2)
  | .call callee args, parent, st =>
    let callee_name := match callee with
      | some (Expr.ident sym) => sym
      | _ => "anonymous"
    let r := add_node st (.call callee_name)
    let st1 := parent_edge r.2 parent r.1
    let st2 := call_edge_to_def st1 callee_name r.1
    let st3 := build_call_args args r.1 st2
    (r.1, st3)
  | .lit l, parent, st =>
    let lit_type := match l with
      | .num n => LitType.num n
      | .str s => LitType.str s
      | .bool b => LitType.bool b
      | .other => LitType.str "unknown"
    let r := add_node st (.literal lit_type)
    let st1 := parent_edge r.2 parent r.1
    (r.1, st1)
  | .other, parent, st =>
    let r := add_node st (.identifier "unknown")
    let st1 := parent_edge r.2 parent r.1
    (r.1, st1)

/-- Argument loop of the call arm: build each argument as a child of the
call node, then add the explicit structural edge the code emits. -/
def build_call_args : List Expr → Nat → GraphBuilder → GraphBuilder
  | [], _, st => st
  | a :: rest, call_node, st =>
    let r := build_expr a (some call_node) st
    let st1 := add_edge r.2 call_node r.1 (.astParent 1)
    build_call_args rest call_node st1

end

/-- Embedding of `GraphBuilder::build_var_declarator` (graph.rs lines
191-207): only simple identifier patterns produce a node; the node is
registered in the definition map and linked to its initializer by a
data-flow edge. -/
def build_var_declarator (decl : VarDeclarator) (parent : Option Nat) (st : GraphBuilder) :
    GraphBuilder :=
  match decl.name with
  | .ident sym =>
    let r := add_node st (.identifier sym)
    let st1 := parent_edge r.2 parent r.1
    let st2 := def_map_insert st1 sym r.1
    (match decl.init with
     | some init =>
       let ri := build_expr init (some r.1) st2
       add_edge ri.2 r.1 ri.1 (.dataFlow 2)
     | none => st2)
  | .other => st

mutual

/-- Embedding of `GraphBuilder::build_stmt` (graph.rs lines 209-252):
return, expression, block and if statements are handled; every other
statement kind produces no node at all (the `_ => None` arm). -/
def build_stmt : Stmt → Option Nat → GraphBuilder → Option Nat × GraphBuilder
  | .ret (some arg), parent, st =>
    let r := add_node st .ret
    let st1 := parent_edge r.2 parent r.1
    let ra := build_expr arg (some r.1) st1
    let st2 := add_edge ra.2 r.1 ra.1 (.dataFlow 2)
    (some r.1, st2)
  | .ret none, parent, st =>
    let r := add_node st .ret
    let st1 := parent_edge r.2 parent r.1
    (some r.1, st1)
  | .exprStmt e, parent, st =>
    let r := build_expr e parent st
    (some r.1, r.2)
  | .block stmts, parent, st =>
    let r := add_node st .blockNode
    let st1 := parent_edge r.2 parent r.1
    (none, build_stmts stmts r.1 st1)
  | .ifStmt test cons (some alt), parent, st =>
    let r := add_node st .ifNode
    let st1 := parent_edge r.2 parent r.1
    let rt := build_expr test (some r.1) st1
    let st2 := add_edge rt.2 r.1 rt.1 (.dataFlow 2)
    let rc := build_stmt cons (some r.1) st2
    let ra := build_stmt alt (some r.1) rc.2
    (some r.1, ra.2)
  | .ifStmt test cons none, parent, st =>
    let r := add_node st .ifNode
    let st1 := parent_edge r.2 parent r.1
    let rt := build_expr test (some r.1) st1
    let st2 := add_edge rt.2 r.1 rt.1 (.dataFlow 2)
    let rc := build_stmt cons (some r.1) st2
    (some r.1, rc.2)
  | .other, _, st => (none, st)

/-- Statement loop of a block: each statement is built as a child of the
block node. -/
def build_stmts : List Stmt → Nat → GraphBuilder → GraphBuilder
  | [], _, st => st
  | s :: rest, block_node, st =>
    let r := build_stmt s (some block_node) st
    build_stmts rest block_node r.2

end

/-- Embedding of `GraphBuilder::build_block_stmt` (graph.rs lines
254-264): a block node wired to the parent, then each statement built as
a child of the block node.  The `.block` arm of `build_stmt` inlines this
same body. -/
def build_block_stmt (stmts : List Stmt) (parent : Option Nat) (st : GraphBuilder) :
    GraphBuilder :=
  let r := add_node st .blockNode
  let st1 := parent_edge r.2 parent r.1
  build_stmts stmts r.1 st1

/-- Embedding of `GraphBuilder::build_param` (graph.rs lines 174-189). -/
def build_param (pat : Pat) (parent : Option Nat) (st : GraphBuilder) : GraphBuilder :=
  match pat with
  | .ident sym =>
    let r := add_node st (.param sym)
    let st1 := parent_edge r.2 parent r.1
    def_map_insert st1 sym r.1
  | .other => st

/-- Parameter loop of `build_function`. -/
def build_params : List Pat → Option Nat → GraphBuilder → GraphBuilder
  | [], _, st => st
  | p :: rest, parent, st =>
    build_params rest parent (build_param p parent st)

/-- Embedding of `GraphBuilder::build_function` (graph.rs lines 153-172):
the function node, its structural edge to the parent when any, its
registration in the definition map, then parameters and body as
children. -/
def build_function (name : String) (func : Function) (parent : Option Nat)
    (st : GraphBuilder) : GraphBuilder :=
  let r := add_node st (.function name)
  let st1 := parent_edge r.2 parent r.1
  let st2 := def_map_insert st1 name r.1
  let st3 := build_params func.params (some r.1) st2
  match func.body with
  | some body => build_block_stmt body (some r.1) st3
  | none => st3

/-- Declarator loop of a variable declaration. -/
def build_var_declarators : List VarDeclarator → Option Nat → GraphBuilder → GraphBuilder
  | [], _, st => st
  | d :: rest, parent, st =>
    build_var_declarators rest parent (build_var_declarator d parent st)

/-- Embedding of `GraphBuilder::build_decl` (graph.rs lines 138-151). -/
def build_decl : Decl → Option Nat → GraphBuilder → GraphBuilder
  | .fn ident function, parent, st => build_function ident function parent st
  | .var decls, parent, st => build_var_declarators decls parent st
  | .other, _, st => st

/-- Embedding of `GraphBuilder::build_default_decl` (graph.rs lines
126-136): an anonymous default function is named "anonymous". -/
def build_default_decl : DefaultDecl → Option Nat → GraphBuilder → GraphBuilder
  | .fn (some ident) function, parent, st => build_function ident function parent st
  | .fn none function, parent, st => build_function "anonymous" function parent st
  | .other, _, st => st

/-- Embedding of `GraphBuilder::build_module_decl` (graph.rs lines
114-124). -/
def build_module_decl : ModuleDecl → Option Nat → GraphBuilder → GraphBuilder
  | .exportDecl decl, parent, st => build_decl decl parent st
  | .exportDefaultDecl decl, parent, st => build_default_decl decl parent st
  | .other, _, st => st

/-- Embedding of `GraphBuilder::build_module_item` (graph.rs lines
107-112). -/
def build_module_item : ModuleItem → Option Nat → GraphBuilder → GraphBuilder
  | .moduleDecl d, parent, st => build_module_decl d parent st
  | .stmt s, parent, st => (build_stmt s parent st).2

/-- Embedding of `GraphBuilder::build_module` (graph.rs lines 101-105):
every top-level item is built with no parent. -/
def build_module_items : List ModuleItem → GraphBuilder → GraphBuilder
  | [], st => st
  | it :: rest, st => build_module_items rest (build_module_item it none st)

/-- Embedding of `build_graph` (graph.rs lines 55-65): run a fresh
builder over the module and package the graph and its stats. -/
def build_graph (module : Module) : GraphData × GraphStats :=
  let st := build_module_items module.body ⟨[], [], [], [], 0⟩
  (⟨st.nodes, st.edges, st.node_map⟩, ⟨st.nodes.length, st.edges.length⟩)

/-- Builder states only grow: node count is monotone and edges are never
removed.  Every build function of graph.rs satisfies this. -/
def builder_le (st st' : GraphBuilder) : Prop :=
  st.nodes.length ≤ st'.nodes.length ∧ ∀ e ∈ st.edges, e ∈ st'.edges

theorem builder_le_refl (st : GraphBuilder) : builder_le st st :=
  ⟨le_refl _, fun _ he => he⟩

theorem builder_le_trans {a b c : GraphBuilder}
    (h1 : builder_le a b) (h2 : builder_le b c) : builder_le a c :=
  ⟨le_trans h1.1 h2.1, fun e he => h2.2 e (h1.2 e he)⟩

theorem add_node_le (st : GraphBuilder) (t : NodeType) :
    builder_le st (add_node st t).2 := by
  refine ⟨?_, fun e he => he⟩
  simp [add_node]

theorem add_edge_le (st : GraphBuilder) (a b : Nat) (et : EdgeType) :
    builder_le st (add_edge st a b et) := by
  refine ⟨le_refl _, fun e he => ?_⟩
  simp only [add_edge]
  exact List.mem_append_left _ he

theorem parent_edge_le (st : GraphBuilder) (parent : Option Nat) (idx : Nat) :
    builder_le st (parent_edge st parent idx) := by
  cases parent
  · exact builder_le_refl st
  · exact add_edge_le st _ idx _

theorem data_flow_edge_from_def_le (st : GraphBuilder) (name : String) (idx : Nat) :
    builder_le st (data_flow_edge_from_def st name idx) := by
  unfold data_flow_edge_from_def
  cases def_map_get st name
  · exact builder_le_refl st
  · exact add_edge_le st _ idx _

theorem call_edge_to_def_le (st : GraphBuilder) (name : String) (idx : Nat) :
    builder_le st (call_edge_to_def st name idx) := by
  unfold call_edge_to_def
  cases def_map_get st name
  · exact builder_le_refl st
  · exact add_edge_le st idx _ _

theorem def_map_insert_le (st : GraphBuilder) (name : String) (idx : Nat) :
    builder_le st (def_map_insert st name idx) :=
  ⟨le_refl _, fun _ he => he⟩

mutual

theorem build_expr_le : ∀ (e : Expr) (parent : Option Nat) (st : GraphBuilder),
    builder_le st (build_expr e parent st).2
  | .ident sym, parent, st => by
    simp only [build_expr]
    refine builder_le_trans ?_ (data_flow_edge_from_def_le _ _ _)
    refine builder_le_trans ?_ (parent_edge_le _ _ _)
    exact add_node_le _ _
  | .bin op left right, parent, st => by
    simp only [build_expr]
    refine builder_le_trans ?_ (add_edge_le _ _ _ _)
    refine builder_le_trans ?_ (add_edge_le _ _ _ _)
    refine builder_le_trans ?_ (build_expr_le right _ _)
    refine builder_le_trans ?_ (build_expr_le left _ _)
    refine builder_le_trans ?_ (parent_edge_le _ _ _)
    exact add_node_le _ _
  | .unary op arg, parent, st => by
    simp only [build_expr]
    refine builder_le_trans ?_ (add_edge_le _ _ _ _)
    refine builder_le_trans ?_ (build_expr_le arg _ _)
    refine builder_le_trans ?_ (parent_edge_le _ _ _)
    exact add_node_le _ _
  | .call callee args, parent, st => by
    simp only [build_expr]
    refine builder_le_trans ?_ (build_call_args_le args _ _)
    refine builder_le_trans ?_ (call_edge_to_def_le _ _ _)
    refine builder_le_trans ?_ (parent_edge_le _ _ _)
    exact add_node_le _ _
  | .lit l, parent, st => by
    simp only [build_expr]
    refine builder_le_trans ?_ (parent_edge_le _ _ _)
    exact add_node_le _ _
  | .other, parent, st => by
    simp only [build_expr]
    refine builder_le_trans ?_ (parent_edge_le _ _ _)
    exact add_node_le _ _

theorem build_call_args_le : ∀ (args : List Expr) (cn : Nat) (st : GraphBuilder),
    builder_le st (build_call_args args cn st)
  | [], _, st => by
    simp only [build_call_args]
    exact builder_le_refl st
  | a :: rest, cn, st => by
    simp only [build_call_args]
    refine builder_le_trans ?_ (build_call_args_le rest cn _)
    refine builder_le_trans ?_ (add_edge_le _ _ _ _)
    exact build_expr_le a _ _

end

theorem build_var_declarator_le (decl : VarDeclarator) (parent : Option Nat)
    (st : GraphBuilder) : builder_le st (build_var_declarator decl parent st) := by
  obtain ⟨name, init⟩ := decl
  cases name
  · cases init
    · simp only [build_var_declarator]
      refine builder_le_trans ?_ (def_map_insert_le _ _ _)
      refine builder_le_trans ?_ (parent_edge_le _ _ _)
      exact add_node_le _ _
    · simp only [build_var_declarator]
      refine builder_le_trans ?_ (add_edge_le _ _ _ _)
      refine builder_le_trans ?_ (build_expr_le _ _ _)
      refine builder_le_trans ?_ (def_map_insert_le _ _ _)
      refine builder_le_trans ?_ (parent_edge_le _ _ _)
      exact add_node_le _ _
  · simp only [build_var_declarator]
    exact builder_le_refl st

mutual

theorem build_stmt_le : ∀ (s : Stmt) (parent : Option Nat) (st : GraphBuilder),
    builder_le st (build_stmt s parent st).2
  | .ret (some arg), parent, st => by
    simp only [build_stmt]
    refine builder_le_trans ?_ (add_edge_le _ _ _ _)
    refine builder_le_trans ?_ (build_expr_le arg _ _)
    refine builder_le_trans ?_ (parent_edge_le _ _ _)
    exact add_node_le _ _
  | .ret none, parent, st => by
    simp only [build_stmt]
    refine builder_le_trans ?_ (parent_edge_le _ _ _)
    exact add_node_le _ _
  | .exprStmt e, parent, st => by
    simp only [build_stmt]
    exact build_expr_le e parent st
  | .block stmts, parent, st => by
    simp only [build_stmt]
    refine builder_le_trans ?_ (build_stmts_le stmts _ _)
    refine builder_le_trans ?_ (parent_edge_le _ _ _)
    exact add_node_le _ _
  | .ifStmt test cons (some alt), parent, st => by
    simp only [build_stmt]
    refine builder_le_trans ?_ (build_stmt_le alt _ _)
    refine builder_le_trans ?_ (build_stmt_le cons _ _)
    refine builder_le_trans ?_ (add_edge_le _ _ _ _)
    refine builder_le_trans ?_ (build_expr_le test _ _)
    refine builder_le_trans ?_ (parent_edge_le _ _ _)
    exact add_node_le _ _
  | .ifStmt test cons none, parent, st => by
    simp only [build_stmt]
    refine builder_le_trans ?_ (build_stmt_le cons _ _)
    refine builder_le_trans ?_ (add_edge_le _ _ _ _)
    refine builder_le_trans ?_ (build_expr_le test _ _)
    refine builder_le_trans ?_ (parent_edge_le _ _ _)
    exact add_node_le _ _
  | .other, _, st => by
    simp only [build_stmt]
    exact builder_le_refl st

theorem build_stmts_le : ∀ (stmts : List Stmt) (block_node : Nat) (st : GraphBuilder),
    builder_le st (build_stmts stmts block_node st)
  | [], _, st => by
    simp only [build_stmts]
    exact builder_le_refl st
  | s :: rest, block_node, st => by
    simp only [build_stmts]
    refine builder_le_trans ?_ (build_stmts_le rest block_node _)
    exact build_stmt_le s _ _

end

theorem build_block_stmt_le (stmts : List Stmt) (parent : Option Nat)
    (st : GraphBuilder) : builder_le st (build_block_stmt stmts parent st) := by
  simp only [build_block_stmt]
  refine builder_le_trans ?_ (build_stmts_le stmts _ _)
  refine builder_le_trans ?_ (parent_edge_le _ _ _)
  exact add_node_le _ _

theorem build_param_le (pat : Pat) (parent : Option Nat) (st : GraphBuilder) :
    builder_le st (build_param pat parent st) := by
  cases pat
  · simp only [build_param]
    refine builder_le_trans ?_ (def_map_insert_le _ _ _)
    refine builder_le_trans ?_ (parent_edge_le _ _ _)
    exact add_node_le _ _
  · simp only [build_param]
    exact builder_le_refl st

theorem build_params_le : ∀ (pats : List Pat) (parent : Option Nat) (st : GraphBuilder),
    builder_le st (build_params pats parent st)
  | [], _, st => builder_le_refl st
  | p :: rest, parent, st => by
    simp only [build_params]
    refine builder_le_trans ?_ (build_params_le rest parent _)
    exact build_param_le p parent st

theorem build_function_le (name : String) (func : Function) (parent : Option Nat)
    (st : GraphBuilder) : builder_le st (build_function name func parent st) := by
  obtain ⟨params, body⟩ := func
  cases body
  · simp only [build_function]
    refine builder_le_trans ?_ (build_params_le params _ _)
    refine builder_le_trans ?_ (def_map_insert_le _ _ _)
    refine builder_le_trans ?_ (parent_edge_le _ _ _)
    exact add_node_le _ _
  · simp only [build_function]
    refine builder_le_trans ?_ (build_block_stmt_le _ _ _)
    refine builder_le_trans ?_ (build_params_le params _ _)
    refine builder_le_trans ?_ (def_map_insert_le _ _ _)
    refine builder_le_trans ?_ (parent_edge_le _ _ _)
    exact add_node_le _ _

theorem add_edge_nodes (st : GraphBuilder) (a b : Nat) (et : EdgeType) :
    (add_edge st a b et).nodes = st.nodes := rfl

theorem def_map_insert_nodes (st : GraphBuilder) (n : String) (i : Nat) :
    (def_map_insert st n i).nodes = st.nodes := rfl

theorem parent_edge_nodes (st : GraphBuilder) (parent : Option Nat) (idx : Nat) :
    (parent_edge st parent idx).nodes = st.nodes := by
  cases parent <;> rfl

theorem data_flow_edge_from_def_nodes (st : GraphBuilder) (n : String) (i : Nat) :
    (data_flow_edge_from_def st n i).nodes = st.nodes := by
  unfold data_flow_edge_from_def
  cases def_map_get st n <;> rfl

theorem call_edge_to_def_nodes (st : GraphBuilder) (n : String) (i : Nat) :
    (call_edge_to_def st n i).nodes = st.nodes := by
  unfold call_edge_to_def
  cases def_map_get st n <;> rfl

/-- Every node created in the step from `st` to `st'` has a structural
(AstParent) edge pointing at it in `st'`. -/
def new_nodes_covered (st st' : GraphBuilder) : Prop :=
  ∀ v, st.nodes.length ≤ v → v < st'.nodes.length →
    ∃ e ∈ st'.edges, e.2.1 = v ∧ e.2.2.isAstParent

theorem covered_of_no_new_node (st st' : GraphBuilder)
    (h : st'.nodes.length ≤ st.nodes.length) : new_nodes_covered st st' :=
  fun _ hv1 hv2 => absurd (lt_of_lt_of_le hv2 h) (not_lt.mpr hv1)

theorem covered_step (st mid fin : GraphBuilder)
    (h1 : new_nodes_covered st mid) (h2 : new_nodes_covered mid fin)
    (hle : builder_le mid fin) : new_nodes_covered st fin := by
  intro v hv1 hv2
  by_cases hm : v < mid.nodes.length
  · obtain ⟨e, he, hev, het⟩ := h1 v hv1 hm
    exact ⟨e, hle.2 e he, hev, het⟩
  · exact h2 v (le_of_not_lt hm) hv2

theorem covered_extend (st mid fin : GraphBuilder) (h : new_nodes_covered st mid)
    (hle : builder_le mid fin) (hnodes : fin.nodes.length ≤ mid.nodes.length) :
    new_nodes_covered st fin := by
  intro v hv1 hv2
  obtain ⟨e, he, hev, het⟩ := h v hv1 (lt_of_lt_of_le hv2 hnodes)
  exact ⟨e, hle.2 e he, hev, het⟩

/-- The `add_node`-then-`parent_edge` prologue with a present parent
covers the freshly created node. -/
theorem add_node_parent_edge_covered (st : GraphBuilder) (t : NodeType) (p : Nat) :
    new_nodes_covered st (parent_edge (add_node st t).2 (some p) (add_node st t).1) := by
  intro v hv1 hv2
  have hlen : (parent_edge (add_node st t).2 (some p) (add_node st t).1).nodes.length =
      st.nodes.length + 1 := by
    rw [parent_edge_nodes]
    simp [add_node]
  have hv : v = st.nodes.length := by omega
  refine ⟨(p, st.nodes.length, EdgeType.astParent 1), ?_, by simp [hv], trivial⟩
  simp [parent_edge, add_edge, add_node]

mutual

theorem build_expr_covered : ∀ (e : Expr) (p : Nat) (st : GraphBuilder),
    new_nodes_covered st (build_expr e (some p) st).2
  | .ident sym, p, st => by
    simp only [build_expr]
    refine covered_extend _ _ _ ?_ (data_flow_edge_from_def_le _ _ _)
      (le_of_eq (by rw [data_flow_edge_from_def_nodes]))
    exact add_node_parent_edge_covered st _ p
  | .bin op left right, p, st => by
    simp only [build_expr]
    refine covered_extend _ _ _ ?_ (add_edge_le _ _ _ _) (Nat.le_of_eq rfl)
    refine covered_extend _ _ _ ?_ (add_edge_le _ _ _ _) (Nat.le_of_eq rfl)
    refine covered_step _ _ _ ?_ (build_expr_covered right _ _) (build_expr_le right _ _)
    refine covered_step _ _ _ ?_ (build_expr_covered left _ _) (build_expr_le left _ _)
    exact add_node_parent_edge_covered st _ p
  | .unary op arg, p, st => by
    simp only [build_expr]
    refine covered_extend _ _ _ ?_ (add_edge_le _ _ _ _) (Nat.le_of_eq rfl)
    refine covered_step _ _ _ ?_ (build_expr_covered arg _ _) (build_expr_le arg _ _)
    exact add_node_parent_edge_covered st _ p
  | .call callee args, p, st => by
    simp only [build_expr]
    refine covered_step _ _ _ ?_ (build_call_args_covered args _ _) (build_call_args_le args _ _)
    refine covered_extend _ _ _ ?_ (call_edge_to_def_le _ _ _)
      (le_of_eq (by rw [call_edge_to_def_nodes]))
    exact add_node_parent_edge_covered st _ p
  | .lit l, p, st => by
    simp only [build_expr]
    exact add_node_parent_edge_covered st _ p
  | .other, p, st => by
    simp only [build_expr]
    exact add_node_parent_edge_covered st _ p

theorem build_call_args_covered : ∀ (args : List Expr) (cn : Nat) (st : GraphBuilder),
    new_nodes_covered st (build_call_args args cn st)
  | [], _, st => by
    simp only [build_call_args]
    exact covered_of_no_new_node st st (Nat.le_refl _)
  | a :: rest, cn, st => by
    simp only [build_call_args]
    refine covered_step _ _ _ ?_ (build_call_args_covered rest cn _) (build_call_args_le rest cn _)
    refine covered_extend _ _ _ ?_ (add_edge_le _ _ _ _) (Nat.le_of_eq rfl)
    exact build_expr_covered a cn st

end

theorem build_var_declarator_covered (decl : VarDeclarator) (p : Nat) (st : GraphBuilder) :
    new_nodes_covered st (build_var_declarator decl (some p) st) := by
  obtain ⟨name, init⟩ := decl
  cases name
  · cases init
    · simp only [build_var_declarator]
      refine covered_extend _ _ _ ?_ (def_map_insert_le _ _ _) (Nat.le_of_eq rfl)
      exact add_node_parent_edge_covered st _ p
    · simp only [build_var_declarator]
      refine covered_extend _ _ _ ?_ (add_edge_le _ _ _ _) (Nat.le_of_eq rfl)
      refine covered_step _ _ _ ?_ (build_expr_covered _ _ _) (build_expr_le _ _ _)
      refine covered_extend _ _ _ ?_ (def_map_insert_le _ _ _) (Nat.le_of_eq rfl)
      exact add_node_parent_edge_covered st _ p
  · simp only [build_var_declarator]
    exact covered_of_no_new_node st st (Nat.le_refl _)

mutual

theorem build_stmt_covered : ∀ (s : Stmt) (p : Nat) (st : GraphBuilder),
    new_nodes_covered st (build_stmt s (some p) st).2
  | .ret (some arg), p, st => by
    simp only [build_stmt]
    refine covered_extend _ _ _ ?_ (add_edge_le _ _ _ _) (Nat.le_of_eq rfl)
    refine covered_step _ _ _ ?_ (build_expr_covered arg _ _) (build_expr_le arg _ _)
    exact add_node_parent_edge_covered st _ p
  | .ret none, p, st => by
    simp only [build_stmt]
    exact add_node_parent_edge_covered st _ p
  | .exprStmt e, p, st => by
    simp only [build_stmt]
    exact build_expr_covered e p st
  | .block stmts, p, st => by
    simp only [build_stmt]
    refine covered_step _ _ _ ?_ (build_stmts_covered stmts _ _) (build_stmts_le stmts _ _)
    exact add_node_parent_edge_covered st _ p
  | .ifStmt test cons (some alt), p, st => by
    simp only [build_stmt]
    refine covered_step _ _ _ ?_ (build_stmt_covered alt _ _) (build_stmt_le alt _ _)
    refine covered_step _ _ _ ?_ (build_stmt_covered cons _ _) (build_stmt_le cons _ _)
    refine covered_extend _ _ _ ?_ (add_edge_le _ _ _ _) (Nat.le_of_eq rfl)
    refine covered_step _ _ _ ?_ (build_expr_covered test _ _) (build_expr_le test _ _)
    exact add_node_parent_edge_covered st _ p
  | .ifStmt test cons none, p, st => by
    simp only [build_stmt]
    refine covered_step _ _ _ ?_ (build_stmt_covered cons _ _) (build_stmt_le cons _ _)
    refine covered_extend _ _ _ ?_ (add_edge_le _ _ _ _) (Nat.le_of_eq rfl)
    refine covered_step _ _ _ ?_ (build_expr_covered test _ _) (build_expr_le test _ _)
    exact add_node_parent_edge_covered st _ p
  | .other, p, st => by
    simp only [build_stmt]
    exact covered_of_no_new_node st st (Nat.le_refl _)

theorem build_stmts_covered : ∀ (stmts : List Stmt) (block_node : Nat) (st : GraphBuilder),
    new_nodes_covered st (build_stmts stmts block_node st)
  | [], _, st => by
    simp only [build_stmts]
    exact covered_of_no_new_node st st (Nat.le_refl _)
  | s :: rest, block_node, st => by
    simp only [build_stmts]
    refine covered_step _ _ _ ?_ (build_stmts_covered rest block_node _)
      (build_stmts_le rest block_node _)
    exact build_stmt_covered s block_node st

end

theorem build_block_stmt_covered (stmts : List Stmt) (p : Nat) (st : GraphBuilder) :
    new_nodes_covered st (build_block_stmt stmts (some p) st) := by
  simp only [build_block_stmt]
  refine covered_step _ _ _ ?_ (build_stmts_covered stmts _ _) (build_stmts_le stmts _ _)
  exact add_node_parent_edge_covered st _ p

theorem build_param_covered (pat : Pat) (p : Nat) (st : GraphBuilder) :
    new_nodes_covered st (build_param pat (some p) st) := by
  cases pat
  · simp only [build_param]
    refine covered_extend _ _ _ ?_ (def_map_insert_le _ _ _) (Nat.le_of_eq rfl)
    exact add_node_parent_edge_covered st _ p
  · simp only [build_param]
    exact covered_of_no_new_node st st (Nat.le_refl _)

theorem build_params_covered : ∀ (pats : List Pat) (p : Nat) (st : GraphBuilder),
    new_nodes_covered st (build_params pats (some p) st)
  | [], _, st => covered_of_no_new_node st st (Nat.le_refl _)
  | q :: rest, p, st => by
    simp only [build_params]
    refine covered_step _ _ _ ?_ (build_params_covered rest p _) (build_params_le rest (some p) _)
    exact build_param_covered q p st

/-- In `build_function` with no parent (the top-level case) every created
node except the function node itself receives a structural edge. -/
theorem build_function_none_covered (name : String) (func : Function) (st : GraphBuilder) :
    ∀ v, st.nodes.length < v → v < (build_function name func none st).nodes.length →
      ∃ e ∈ (build_function name func none st).edges, e.2.1 = v ∧ e.2.2.isAstParent := by
  obtain ⟨params, body⟩ := func
  have key : new_nodes_covered (add_node st (NodeType.function name)).2
      (build_function name ⟨params, body⟩ none st) := by
    cases body
    · simp only [build_function]
      refine covered_step _ _ _ ?_ (build_params_covered params _ _) (build_params_le params _ _)
      refine covered_extend _ _ _ ?_ (def_map_insert_le _ _ _) (Nat.le_of_eq rfl)
      exact covered_of_no_new_node _ _ (le_of_eq (by rw [parent_edge_nodes]))
    · simp only [build_function]
      refine covered_step _ _ _ ?_ (build_block_stmt_covered _ _ _) (build_block_stmt_le _ _ _)
      refine covered_step _ _ _ ?_ (build_params_covered params _ _) (build_params_le params _ _)
      refine covered_extend _ _ _ ?_ (def_map_insert_le _ _ _) (Nat.le_of_eq rfl)
      exact covered_of_no_new_node _ _ (le_of_eq (by rw [parent_edge_nodes]))
  intro v hv1 hv2
  have hlen : (add_node st (NodeType.function name)).2.nodes.length = st.nodes.length + 1 := by
    simp [add_node]
  exact key v (by omega) hv2

mutual

/-- Number of graph nodes the builder creates for an expression: exactly
one for the expression itself plus the nodes of the children it visits
(the callee of a call is never visited, and an unhandled expression has
no visited children). -/
def expr_node_count : Expr → Nat
  | .ident _ => 1
  | .bin _ l r => 1 + expr_node_count l + expr_node_count r
  | .unary _ a => 1 + expr_node_count a
  | .call _ args => 1 + expr_args_node_count args
  | .lit _ => 1
  | .other => 1

/-- Node count for an argument list. -/
def expr_args_node_count : List Expr → Nat
  | [] => 0
  | e :: rest => expr_node_count e + expr_args_node_count rest

end

mutual

theorem build_expr_node_count : ∀ (e : Expr) (parent : Option Nat) (st : GraphBuilder),
    ((build_expr e parent st).2).nodes.length = st.nodes.length + expr_node_count e
  | .ident sym, parent, st => by
    simp only [build_expr, expr_node_count]
    rw [data_flow_edge_from_def_nodes, parent_edge_nodes]
    simp [add_node]
  | .bin op left right, parent, st => by
    simp only [build_expr, expr_node_count]
    rw [add_edge_nodes, add_edge_nodes, build_expr_node_count right,
      build_expr_node_count left, parent_edge_nodes]
    simp only [add_node, List.length_append, List.length_cons, List.length_nil]
    omega
  | .unary op arg, parent, st => by
    simp only [build_expr, expr_node_count]
    rw [add_edge_nodes, build_expr_node_count arg, parent_edge_nodes]
    simp only [add_node, List.length_append, List.length_cons, List.length_nil]
    omega
  | .call callee args, parent, st => by
    simp only [build_expr, expr_node_count]
    rw [build_call_args_node_count args, call_edge_to_def_nodes, parent_edge_nodes]
    simp only [add_node, List.length_append, List.length_cons, List.length_nil]
    omega
  | .lit l, parent, st => by
    simp only [build_expr, expr_node_count]
    rw [parent_edge_nodes]
    simp [add_node]
  | .other, parent, st => by
    simp only [build_expr, expr_node_count]
    rw [parent_edge_nodes]
    simp [add_node]

theorem build_call_args_node_count : ∀ (args : List Expr) (cn : Nat) (st : GraphBuilder),
    (build_call_args args cn st).nodes.length = st.nodes.length + expr_args_node_count args
  | [], _, st => by
    simp [build_call_args, expr_args_node_count]
  | a :: rest, cn, st => by
    simp only [build_call_args, expr_args_node_count]
    rw [build_call_args_node_count rest, add_edge_nodes, build_expr_node_count a]
    omega

end

/-- Module whose only item is an exported function `f` containing one
statement of an unhandled kind. -/
def unhandled_stmt_module : Module :=
  ⟨[ModuleItem.moduleDecl (ModuleDecl.exportDecl (Decl.fn "f" ⟨[], some [Stmt.other]⟩))]⟩

/-- C3 counterexample: the module above has an unhandled statement inside
the function body, yet the built graph has only the function node and the
block node — no node at all for the unhandled statement, and in
particular no `Identifier("unknown")` fallback node, contradicting the
claim that every syntax node, including unhandled constructs, contributes
exactly one graph node. -/
theorem unhandled_stmt_contributes_no_node :
    ((build_graph unhandled_stmt_module).1).nodes =
        [NodeType.function "f", NodeType.blockNode] ∧
      NodeType.identifier "unknown" ∉ ((build_graph unhandled_stmt_module).1).nodes := by
  constructor
  · rfl
  · decide

/-- C3 amended: every *expression* handed to `build_expr` contributes
exactly one graph node for itself (created before its children), unhandled
expressions falling back to an `Identifier("unknown")` node wired to the
parent; but an unhandled *statement* contributes no node at all, so graph
node count is bounded by tree size rather than equal to it. -/
theorem build_expr_one_node_build_stmt_fallback_none :
    (∀ (e : Expr) (parent : Option Nat) (st : GraphBuilder),
        ((build_expr e parent st).2).nodes.length = st.nodes.length + expr_node_count e) ∧
    (∀ (e : Expr) (parent : Option Nat) (st : GraphBuilder),
        (build_expr e parent st).1 = st.nodes.length) ∧
    (∀ (parent : Option Nat) (st : GraphBuilder),
        ((build_expr Expr.other parent st).2).nodes =
          st.nodes ++ [NodeType.identifier "unknown"]) ∧
    (∀ (p : Nat) (st : GraphBuilder),
        ((build_expr Expr.other (some p) st).2).edges =
          st.edges ++ [(p, st.nodes.length, EdgeType.astParent 1)]) ∧
    (∀ (parent : Option Nat) (st : GraphBuilder), (build_stmt Stmt.other parent st).2 = st) := by
  refine ⟨build_expr_node_count, ?_, ?_, ?_, ?_⟩
  · intro e parent st
    cases e <;> simp [build_expr, add_node]
  · intro parent st
    simp only [build_expr]
    rw [parent_edge_nodes]
    simp [add_node]
  · intro p st
    simp [build_expr, parent_edge, add_edge, add_node]
  · intro parent st
    simp [build_stmt]

/-- Module whose only item is a top-level exported variable declaration
`export const x;` with no initializer. -/
def top_level_var_module : Module :=
  ⟨[ModuleItem.moduleDecl (ModuleDecl.exportDecl (Decl.var [⟨Pat.ident "x", none⟩]))]⟩

/-- C4 counterexample: the graph built from a top-level exported variable
declaration has a single node — an `Identifier("x")` node, not a function
root — and no edges at all, so a node other than the function root has no
structural edge to any parent. -/
theorem top_level_var_no_structural_edge :
    ((build_graph top_level_var_module).1).nodes = [NodeType.identifier "x"] ∧
      ((build_graph top_level_var_module).1).edges = [] :=
  ⟨rfl, rfl⟩

/-- C4 amended: in every graph built from a module consisting of a single
exported function declaration, every node except node 0 (the function
root) has at least one AstParent edge pointing at it from its syntactic
parent; DataFlow and Call edges only come on top of that structural
skeleton.  (In general it is nodes created for top-level module items —
not only function roots — that lack the structural edge.) -/
theorem single_function_non_root_has_structural_edge (name : String) (func : Function)
    (v : Nat) (hv : 0 < v)
    (hlt : v < ((build_graph ⟨[ModuleItem.moduleDecl (ModuleDecl.exportDecl
        (Decl.fn name func))]⟩).1).nodes.length) :
    ∃ e ∈ ((build_graph ⟨[ModuleItem.moduleDecl (ModuleDecl.exportDecl
        (Decl.fn name func))]⟩).1).edges, e.2.1 = v ∧ e.2.2.isAstParent := by
  simp only [build_graph, build_module_items, build_module_item, build_module_decl,
    build_decl] at hlt ⊢
  exact build_function_none_covered name func ⟨[], [], [], [], 0⟩ v hv hlt

theorem single_function_non_root_has_structural_edge_witness :
    ∃ e ∈ ((build_graph ⟨[ModuleItem.moduleDecl (ModuleDecl.exportDecl
        (Decl.fn "f" ⟨[Pat.ident "x"], none⟩))]⟩).1).edges, e.2.1 = 1 ∧ e.2.2.isAstParent :=
  single_function_non_root_has_structural_edge "f" ⟨[Pat.ident "x"], none⟩ 1
    (by decide) (by decide)

/-- Dense rational matrix of logical size `n × n`, represented by its
entry function (only indices below `n` are ever consulted). -/
structure QMat where
  n : Nat
  entry : Nat → Nat → ℚ

/-- Dense real matrix, same representation. -/
structure RMat where
  n : Nat
  entry : Nat → Nat → ℝ

/-- One assignment `matrix[(i, j)] = w`. -/
def write_entry (m : Nat → Nat → ℚ) (i j : Nat) (w : ℚ) : Nat → Nat → ℚ :=
  fun a b => if a = i ∧ b = j then w else m a b

/-- Edge loop of `build_adjacency_matrix` (spectrum.rs lines 60-67): each
edge, in insertion order, writes its weight into (i, j) and then (j, i);
a later edge on the same pair overwrites the earlier value. -/
def fill_edges : List (Nat × Nat × EdgeType) → (Nat → Nat → ℚ) → (Nat → Nat → ℚ)
  | [], m => m
  | e :: rest, m =>
    fill_edges rest
      (write_entry (write_entry m e.1 e.2.1 e.2.2.weight) e.2.1 e.1 e.2.2.weight)

/-- Maximum entry of the n×n window, with initial accumulator 0,
mirroring the fold at spectrum.rs line 70. -/
def max_entry (m : Nat → Nat → ℚ) (n : Nat) : ℚ :=
  (List.range n).foldl (fun acc j => (List.range n).foldl (fun acc2 i => max acc2 (m i j)) acc) 0

/-- Embedding of `build_adjacency_matrix` (spectrum.rs lines 55-76):
write every edge weight symmetrically (last write wins), then divide the
matrix by its maximum entry when that maximum is positive.  The Rust
function returns `Result` but never errors. -/
def build_adjacency_matrix (gd : GraphData) : QMat :=
  let n := gd.nodes.length
  let filled := fill_edges gd.edges (fun _ _ => 0)
  let max_weight := max_entry filled n
  ⟨n, fun i j => if 0 < max_weight then filled i j / max_weight else filled i j⟩

/-- Embedding of `compute_normalized_laplacian` (spectrum.rs lines
78-103): degrees are row sums over the n×n window, zero degrees are
forced to 1, and `L = I − D^(-1/2) A D^(-1/2)` is formed entrywise (the
outer factors are diagonal, so the product entry is
`A i j / (√dᵢ · √dⱼ)`). -/
noncomputable def compute_normalized_laplacian (adjacency : QMat) : RMat :=
  let n := adjacency.n
  let degree0 : Nat → ℚ := fun i => ((List.range n).map (fun j => adjacency.entry i j)).sum
  let degree : Nat → ℚ := fun i => if degree0 i = 0 then 1 else degree0 i
  ⟨n, fun i j =>
    (if i = j then 1 else 0) -
      (adjacency.entry i j : ℝ) / (Real.sqrt (degree i) * Real.sqrt (degree j))⟩

/-- Type of the dense symmetric eigensolver supplied by nalgebra-lapack
(`SymmetricEigen`), abstracted: any function from a matrix to its list of
eigenvalues.  The spectrum claims hold for every such function, so no
property of the numerical solver is assumed. -/
def EigenSolver : Type := RMat → List ℝ

/-- Embedding of `compute_eigenvalues_full` (spectrum.rs lines 118-136):
sort ascending, truncate to `k`, pad with zeros on the right up to `k`. -/
noncomputable def compute_eigenvalues_full (raw : List ℝ) (k : Nat) : List ℝ :=
  let eigenvalues := raw.insertionSort (· ≤ ·)
  let truncated := eigenvalues.take k
  truncated ++ List.replicate (k - truncated.length) 0

/-- Embedding of `compute_eigenvalues` (spectrum.rs lines 105-116): both
the small-matrix branch and the large-matrix branch end in the same full
decomposition (`compute_eigenvalues_sparse` falls back to it), called
with `actual_k = min k n`. -/
noncomputable def compute_eigenvalues (solver : EigenSolver) (matrix : RMat) (k : Nat) :
    List ℝ :=
  let n := matrix.n
  let actual_k := min k n
  compute_eigenvalues_full (solver matrix) actual_k

/-- Rounding of `f64::round`: nearest integer, ties away from zero. -/
noncomputable def round_ties_away (x : ℝ) : ℤ :=
  if 0 ≤ x then ⌊x + 1 / 2⌋ else -⌊-x + 1 / 2⌋

/-- Embedding of `quantize_values` (spectrum.rs lines 144-159); the
negative-zero fixup is invisible over the reals, where `-0` and `0` are
the same value. -/
noncomputable def quantize_values (values : List ℝ) (quant : Nat) : List ℝ :=
  let factor : ℝ := 10 ^ quant
  values.map (fun v => (round_ties_away (v * factor) : ℝ) / factor)

/-- Embedding of `compute_signature` (spectrum.rs lines 15-53),
parameterized by the eigensolver.  The connected-components check only
emits a diagnostic and proceeds over the whole graph, so it is dropped;
the `Result` wrapper never errors. -/
noncomputable def compute_signature (solver : EigenSolver) (graph_data : GraphData)
    (k quant : Nat) : ProteinSignature :=
  let n := graph_data.nodes.length
  if n = 0 then ⟨List.replicate k 0, k, quant⟩
  else
    let adjacency := build_adjacency_matrix graph_data
    let laplacian := compute_normalized_laplacian adjacency
    let eigenvalues := compute_eigenvalues solver laplacian k
    let quantized := quantize_values eigenvalues quant
    ⟨quantized, k, quant⟩

theorem compute_eigenvalues_full_length (raw : List ℝ) (k : Nat) :
    (compute_eigenvalues_full raw k).length = k := by
  simp only [compute_eigenvalues_full]
  rw [List.length_append, List.length_replicate, List.length_take, List.length_insertionSort]
  omega

theorem compute_eigenvalues_length (solver : EigenSolver) (m : RMat) (k : Nat) :
    (compute_eigenvalues solver m k).length = min k m.n := by
  simp only [compute_eigenvalues]
  rw [compute_eigenvalues_full_length]

theorem quantize_values_length (values : List ℝ) (quant : Nat) :
    (quantize_values values quant).length = values.length := by
  simp [quantize_values]

theorem compute_normalized_laplacian_n (adjacency : QMat) :
    (compute_normalized_laplacian adjacency).n = adjacency.n := rfl

theorem build_adjacency_matrix_n (gd : GraphData) :
    (build_adjacency_matrix gd).n = gd.nodes.length := rfl

/-- What the code actually produces: the value vector has length `k` only
for the empty graph; otherwise it has length `min k n`, because
`compute_eigenvalues` hands `actual_k = min k n` to the padding loop. -/
theorem compute_signature_values_length (solver : EigenSolver) (gd : GraphData)
    (k quant : Nat) :
    (compute_signature solver gd k quant).values.length =
      if gd.nodes.length = 0 then k else min k gd.nodes.length := by
  simp only [compute_signature]
  split
  · next h => simp [h]
  · next h =>
    show (quantize_values _ _).length = _
    rw [quantize_values_length, compute_eigenvalues_length,
      compute_normalized_laplacian_n, build_adjacency_matrix_n]

/-- Graph with a single node (a Return node) and no edges. -/
def one_node_graph : GraphData := ⟨[NodeType.ret], [], []⟩

/-- C1 (code bug): at the failing input — a 1-node graph, k = 3, any
eigensolver returning one eigenvalue per row (here the constant-zero
solver) — the signature's value vector has length 1, not the 3 the claim
requires: `compute_eigenvalues` passes `actual_k = min k n` down to
`compute_eigenvalues_full`, so the zero-padding loop there, whose target
the spec says is `k`, is dead for n < k. -/
theorem one_node_signature_has_one_value :
    ((compute_signature (fun m => List.replicate m.n 0) one_node_graph 3 6).values).length = 1 ∧
      ((compute_signature (fun m => List.replicate m.n 0) one_node_graph 3 6).values).length ≠ 3 := by
  have h := compute_signature_values_length (fun m => List.replicate m.n 0) one_node_graph 3 6
  rw [h]
  simp [one_node_graph]

/-- C7: a zero-node graph yields exactly `k` zeros for every `k` and
`quant`, independently of the eigensolver — no matrix or eigenvalue work
contributes to the result, and the case is a defined value, not an
error. -/
theorem empty_graph_signature_k_zeros (edges : List (Nat × Nat × EdgeType))
    (nmap : List (String × Nat)) (solver1 solver2 : EigenSolver) (k quant : Nat) :
    (compute_signature solver1 ⟨[], edges, nmap⟩ k quant).values = List.replicate k 0 ∧
      compute_signature solver1 ⟨[], edges, nmap⟩ k quant =
        compute_signature solver2 ⟨[], edges, nmap⟩ k quant := by
  constructor <;> simp [compute_signature]

/-- Predicate selecting edges that connect the unordered pair of i and j. -/
def connects_pair (i j : Nat) (e : Nat × Nat × EdgeType) : Bool :=
  (e.1 == i && e.2.1 == j) || (e.1 == j && e.2.1 == i)

/-- The weight of the last edge in the list connecting the unordered pair
of i and j, or 0 when no edge does — an independent description of what
one matrix cell holds after the whole edge loop ran. -/
def last_pair_weight (edges : List (Nat × Nat × EdgeType)) (i j : Nat) : ℚ :=
  match edges.reverse.find? (connects_pair i j) with
  | some e => e.2.2.weight
  | none => 0

theorem fill_edges_eq (edges : List (Nat × Nat × EdgeType)) (m : Nat → Nat → ℚ)
    (i j : Nat) :
    fill_edges edges m i j =
      match edges.reverse.find? (connects_pair i j) with
      | some e => e.2.2.weight
      | none => m i j := by
  induction edges generalizing m with
  | nil => simp [fill_edges]
  | cons e rest ih =>
    simp only [fill_edges, List.reverse_cons]
    rw [ih, List.find?_append]
    cases hfind : rest.reverse.find? (connects_pair i j) with
    | some e0 => simp
    | none =>
      simp only [Option.none_orElse]
      by_cases h1 : e.1 = i ∧ e.2.1 = j
      · simp only [List.find?_cons, connects_pair, h1.1, h1.2, beq_self_eq_true,
          Bool.and_self, Bool.true_or]
        by_cases h2 : i = e.2.1 ∧ j = e.1
        · simp [write_entry, h2]
        · simp [write_entry, h2, h1.1, h1.2]
      · by_cases h2 : e.1 = j ∧ e.2.1 = i
        · simp only [List.find?_cons, connects_pair, h2.1, h2.2, beq_self_eq_true,
            Bool.and_self, Bool.or_true]
          simp [write_entry, h2.1, h2.2]
        · have hp : connects_pair i j e = false := by
            simp only [connects_pair, Bool.or_eq_false_iff, Bool.and_eq_false_iff]
            constructor
            · rcases not_and_or.mp h1 with h | h
              · exact Or.inl (by simpa using h)
              · exact Or.inr (by simpa using h)
            · rcases not_and_or.mp h2 with h | h
              · exact Or.inl (by simpa using h)
              · exact Or.inr (by simpa using h)
          simp only [List.find?_cons, hp]
          have hw1 : ¬(i = e.2.1 ∧ j = e.1) := fun hc => h2 ⟨hc.2.symm, hc.1.symm⟩
          have hw2 : ¬(i = e.1 ∧ j = e.2.1) := fun hc => h1 ⟨hc.1.symm, hc.2.symm⟩
          simp [write_entry, hw1, hw2]

theorem fill_edges_zero_symm (edges : List (Nat × Nat × EdgeType)) (i j : Nat) :
    fill_edges edges (fun _ _ => 0) i j = fill_edges edges (fun _ _ => 0) j i := by
  rw [fill_edges_eq, fill_edges_eq]
  have hp : connects_pair i j = connects_pair j i := by
    funext e
    simp only [connects_pair]
    exact Bool.or_comm _ _
  rw [hp]

/-- C8: each edge's weight is written into both (i, j) and (j, i); when
several edges connect the same node pair the last-processed edge's weight
is what the cell finally holds (earlier weights are lost, not summed);
and the resulting adjacency matrix, including the max-normalization step,
is symmetric. -/
theorem adjacency_symmetric_and_last_edge_wins (gd : GraphData) (i j : Nat) :
    (build_adjacency_matrix gd).entry i j = (build_adjacency_matrix gd).entry j i ∧
      fill_edges gd.edges (fun _ _ => 0) i j = last_pair_weight gd.edges i j := by
  constructor
  · show (if 0 < max_entry (fill_edges gd.edges (fun _ _ => 0)) gd.nodes.length then _ else _) =
      (if 0 < max_entry (fill_edges gd.edges (fun _ _ => 0)) gd.nodes.length then _ else _)
    rw [fill_edges_zero_symm gd.edges i j]
  · rw [fill_edges_eq]
    rfl

end ProteinHash
